import Mathlib

/-!
Verification of the incremental update planner, concurrent fetch coordinator
and storage upsert of the Database_Manager repository
(`src/core/data_fetcher.py`, `src/core/database_manager.py`, `run_update.py`).

Modelling conventions:
* Calendar dates are modelled as integers (days since an arbitrary epoch).
  The Python code compares ISO `YYYY-MM-DD` strings lexicographically and
  subtracts `datetime` values in days; both agree with integer order and
  integer subtraction on day numbers.
* A symbol's stored state, as seen through `DatabaseManager.get_latest_dates`
  followed by `datetime.strptime`, is `Option (Option ℤ)`:
  `none` = no stored rows (dict value `None`), `some none` = a stored value
  whose date parse raises (the `except` branch of `get_update_plan`'s
  per-symbol `try`), `some (some d)` = latest stored date `d`.
* Exceptions raised by a whole code block are modelled by an `Option`-typed
  input selecting the `except` branch.
* Thread-pool nondeterminism: `as_completed` yields the submitted futures in
  an arbitrary order, so the aggregation loop of
  `fetch_all_stocks_concurrent` is modelled as a fold over an explicit
  completion order `order`, constrained in theorems to be a permutation of
  the submitted symbol list.  The pool size `K` itself has no other
  observable effect in the model.
-/

namespace DatabaseManagerRepo

/-- One normalized per-symbol data row, as produced by
`DataFetcher.fetch_single_stock` (columns `ticker, date, open, high, low,
close, volume` after `pd.to_numeric(..., errors='coerce')`; unparseable
numerics become `none`).  SQLite `REAL` values are modelled as rationals. -/
structure Row where
  ticker : String
  date : ℤ
  openPrice : Option ℚ
  highPrice : Option ℚ
  lowPrice : Option ℚ
  closePrice : Option ℚ
  volume : Option ℤ
  deriving DecidableEq, Repr

/-- `symbol.replace('.NS', '')` -/
def tickerOf (symbol : String) : String :=
  symbol.replace ".NS" ""

/-- The configuration dates used by the planner and fetcher:
`config.START_DATE`, `config.END_DATE` and `datetime.now()`'s calendar day. -/
structure PlanConfig where
  startD : ℤ
  endD : ℤ
  today : ℤ
  deriving DecidableEq, Repr

/-- Per-symbol classification outcome of the planning loop in
`DataFetcher.get_update_plan` (lines 309-342). -/
inductive Classification where
  | fullFetch
  | update (range : ℤ × ℤ)
  | upToDate
  deriving DecidableEq, Repr

/-- The per-symbol body of the planning loop in `DataFetcher.get_update_plan`
(lines 311-342).  `latest` is `latest_dates.get(ticker)` combined with the
result of `datetime.strptime` (see the modelling conventions):
* no stored data → full fetch;
* stored date unparseable (`except` at line 339) → full fetch;
* otherwise `start_date = latest + 1`; if `start_date <= today` and
  `(end_date - latest).days > 3` → incremental update with range
  `(start_date, end_date)`, if the gap is `≤ 3` → up to date;
  if `start_date > today` → up to date. -/
def classify_symbol (cfg : PlanConfig) (latest : Option (Option ℤ)) :
    Classification :=
  match latest with
  | none => .fullFetch
  | some none => .fullFetch
  | some (some l) =>
    if l + 1 ≤ cfg.today then
      if cfg.endD - l > 3 then .update (l + 1, cfg.endD) else .upToDate
    else .upToDate

/-- The plan dictionary built by `DataFetcher.get_update_plan`:
three classification lists, the `update_ranges` dict (modelled as a lookup
function) and `total_symbols`. -/
structure UpdatePlan where
  symbols_needing_full_fetch : List String
  symbols_needing_update : List String
  symbols_up_to_date : List String
  update_ranges : String → Option (ℤ × ℤ)
  total_symbols : ℕ

/-- The planning loop of `DataFetcher.get_update_plan` (lines 309-342):
each symbol is appended to exactly one of the three lists, and symbols
needing data get an entry in `update_ranges`. -/
def buildPlan (cfg : PlanConfig) (db : String → Option (Option ℤ)) :
    List String → UpdatePlan
  | [] => ⟨[], [], [], fun _ => none, 0⟩
  | s :: rest =>
    let p := buildPlan cfg db rest
    match classify_symbol cfg (db (tickerOf s)) with
    | .fullFetch =>
      { p with
        symbols_needing_full_fetch := s :: p.symbols_needing_full_fetch
        update_ranges := fun x =>
          if x = s then some (cfg.startD, cfg.endD) else p.update_ranges x }
    | .update r =>
      { p with
        symbols_needing_update := s :: p.symbols_needing_update
        update_ranges := fun x => if x = s then some r else p.update_ranges x }
    | .upToDate =>
      { p with symbols_up_to_date := s :: p.symbols_up_to_date }

/-- `DataFetcher.get_update_plan` (lines 276-358).  `dbResult` is `none` when
the body of the outer `try` raises (e.g. the database import or query
machinery fails), selecting the fallback plan of lines 352-358 that marks
every symbol for a full fetch over `(START_DATE, END_DATE)`; an empty symbol
list returns the empty plan of lines 282-288 before the `try`. -/
def get_update_plan (cfg : PlanConfig)
    (dbResult : Option (String → Option (Option ℤ)))
    (symbols : List String) : UpdatePlan :=
  if symbols.isEmpty then ⟨[], [], [], fun _ => none, 0⟩
  else
    match dbResult with
    | some db => { buildPlan cfg db symbols with total_symbols := symbols.length }
    | none =>
      ⟨symbols, [], [],
        fun s => if s ∈ symbols then some (cfg.startD, cfg.endD) else none,
        symbols.length⟩

/-- `DatabaseManager.get_latest_dates` (lines 238-278).  `queryResult` is the
list of `(ticker, MAX(date))` pairs returned by the SQL query, or `none` when
the query raises: the `except` branch (lines 276-278) returns every requested
ticker mapped to `None`.  On success the result dict starts with every
requested ticker mapped to `None` and is then overwritten from the query
rows (last row wins). -/
def get_latest_dates (queryResult : Option (List (String × ℤ)))
    (tickers : List String) : List (String × Option ℤ) :=
  match queryResult with
  | none => tickers.map fun t => (t, none)
  | some rows =>
    tickers.map fun t => (t, (rows.reverse.find? fun p => p.1 = t).map (·.2))

/-- The date-range guard at the head of `DataFetcher.fetch_single_stock`
(lines 68-81): if the nominal end date is today or later it is trimmed to
yesterday (today's session is incomplete), and if the start date is then
after the end date the fetch is skipped (`None`), otherwise the provider is
called with the returned range. -/
def fetch_single_stock_range (today startD endD : ℤ) : Option (ℤ × ℤ) :=
  let e := if endD ≥ today then today - 1 else endD
  if startD > e then none else some (startD, e)

/-- The observable behaviour of one `fetch_single_stock` task as seen by the
aggregation loop of `fetch_all_stocks_concurrent`:
* `ok rows` — `future.result()` returned normally; `rows = []` covers both a
  `None` return (provider failure caught at lines 130-132, skip at lines
  79-81, empty provider response at lines 89-91) and an empty DataFrame;
* `raised` — `future.result()` re-raised an exception
  (caught at lines 216-218). -/
inductive FetchOutcome where
  | ok (rows : List Row)
  | raised
  deriving DecidableEq, Repr

/-- Rows carried by a fetch outcome (`[]` for `raised`). -/
def FetchOutcome.rowsOf : FetchOutcome → List Row
  | .ok rows => rows
  | .raised => []

/-- The accumulator of the aggregation loop in
`fetch_all_stocks_concurrent` (lines 184-223): the `successful_fetches` and
`failed_fetches` counters and the `all_data` list of per-symbol DataFrames. -/
structure AggState where
  successful_fetches : ℕ
  failed_fetches : ℕ
  all_data : List (List Row)
  deriving DecidableEq, Repr

/-- One iteration of the `as_completed` loop (lines 198-223):
a non-`None`, non-empty result is collected and counted successful; `None` or
empty counts as a failure only in full-refresh mode (lines 208-214); a raised
exception counts as a failure (lines 216-218). -/
def aggStep (full_refresh : Bool) (fetch : String → FetchOutcome)
    (st : AggState) (symbol : String) : AggState :=
  match fetch symbol with
  | .raised => { st with failed_fetches := st.failed_fetches + 1 }
  | .ok rows =>
    if rows.isEmpty then
      if full_refresh then { st with failed_fetches := st.failed_fetches + 1 }
      else st
    else
      { st with
        successful_fetches := st.successful_fetches + 1
        all_data := st.all_data ++ [rows] }

/-- The whole aggregation loop, folded over the task completion order. -/
def aggregate (full_refresh : Bool) (fetch : String → FetchOutcome)
    (order : List String) : AggState :=
  order.foldl (aggStep full_refresh fetch) ⟨0, 0, []⟩

/-- The result dict of `fetch_all_stocks_concurrent`, restricted to the
fields the spec's Run Summary names (timing fields are wall-clock and not
modelled). -/
structure RunSummary where
  success : Bool
  fullRefreshMode : Bool
  total_symbols : ℕ
  successful_fetches : ℕ
  failed_fetches : ℕ
  skipped_fetches : ℕ
  total_records : ℕ
  deriving DecidableEq, Repr

/-- The four return shapes of `fetch_all_stocks_concurrent`:
the "no symbols" error (line 145), the all-up-to-date early success (lines
169-179), the main return after the database write (lines 246-264), and the
"no data fetched" error (lines 269-274). -/
inductive RunOutcome where
  | errNoSymbols
  | okUpToDate (summary : RunSummary)
  | finished (summary : RunSummary)
  | errNoData (failed_fetches : ℕ)
  deriving DecidableEq, Repr

/-- The value returned by `fetch_all_stocks_concurrent` together with its
observable storage effect: `retOk` is the boolean first component of the
returned tuple, `dbWriteCalled` records whether
`db_manager.insert_dataframe_chunked` was invoked, and `written` is the
combined DataFrame passed to it (`[]` when it is not called). -/
structure RunReturn where
  retOk : Bool
  outcome : RunOutcome
  dbWriteCalled : Bool
  written : List Row
  deriving DecidableEq, Repr

/-- The Run Summary inside a `RunReturn`, when the return shape carries one. -/
def RunReturn.summaryOf : RunReturn → Option RunSummary
  | ⟨_, .okUpToDate s, _, _⟩ => some s
  | ⟨_, .finished s, _, _⟩ => some s
  | _ => none

/-- `total_records` as reported by a `RunReturn` (`0` for error shapes). -/
def RunReturn.totalRecords (r : RunReturn) : ℕ :=
  match r.summaryOf with
  | some s => s.total_records
  | none => 0

/-- The symbols submitted to the thread pool (lines 147-164): all of them in
full-refresh mode, otherwise the plan's full-fetch and update lists. -/
def symbolsToProcess (cfg : PlanConfig)
    (dbResult : Option (String → Option (Option ℤ)))
    (symbols : List String) (full_refresh : Bool) : List String :=
  if full_refresh then symbols
  else
    let plan := get_update_plan cfg dbResult symbols
    plan.symbols_needing_full_fetch ++ plan.symbols_needing_update

/-- The per-row insert success predicate abstracting the `try` around the
single-row `INSERT OR REPLACE` of `insert_dataframe_chunked` (lines 145-166):
a row whose field coercion raises is logged and skipped. -/
abbrev RowOk := Row → Bool

/-- The boolean returned by `DatabaseManager.insert_dataframe_chunked`
(lines 102-177): `False` for an empty DataFrame (lines 116-118), otherwise
`inserted_count > 0` (line 173) where `inserted_count` counts the rows whose
individual insert succeeded.  The fixed-size chunking (lines 135-170) commits
the rows in their original order, so it does not affect the count. -/
def insert_dataframe_chunked (rowOk : RowOk) (df : List Row) : Bool :=
  if df.isEmpty then false else 0 < df.countP rowOk

/-- `DataFetcher.fetch_all_stocks_concurrent` (lines 134-274).
Inputs beyond the Python arguments, per the modelling conventions:
`dbResult` feeds `get_update_plan`; `rowOk` abstracts per-row insert
success; `fetch` gives each submitted symbol's task outcome; `order` is the
completion order of `as_completed` (theorems quantify over permutations of
`symbolsToProcess`).  The progress callback has no effect on the result and
is not modelled. -/
def fetch_all_stocks_concurrent (cfg : PlanConfig)
    (dbResult : Option (String → Option (Option ℤ))) (rowOk : RowOk)
    (fetch : String → FetchOutcome) (symbols : List String)
    (full_refresh : Bool) (order : List String) : RunReturn :=
  if symbols.isEmpty then ⟨false, .errNoSymbols, false, []⟩
  else
    let plan := get_update_plan cfg dbResult symbols
    let stp := symbolsToProcess cfg dbResult symbols full_refresh
    if ¬ full_refresh ∧ stp.isEmpty then
      ⟨true,
        .okUpToDate
          ⟨true, false, symbols.length, 0, 0, plan.symbols_up_to_date.length, 0⟩,
        false, []⟩
    else
      let skipped := if full_refresh then 0 else symbols.length - stp.length
      let st := aggregate full_refresh fetch order
      if st.all_data.isEmpty then
        ⟨false, .errNoData st.failed_fetches, false, []⟩
      else
        let combined := st.all_data.flatten
        let ok := insert_dataframe_chunked rowOk combined
        ⟨ok,
          .finished
            ⟨ok, full_refresh, symbols.length, st.successful_fetches,
              st.failed_fetches, skipped, combined.length⟩,
          true, combined⟩

/-- `run_update.main` (lines 41-84) calls `save_last_update_time()` exactly
when `fetch_all_stocks_concurrent` returns `success = True` (lines 59-63);
this function tells whether the `data/last_update.json` marker is written for
a given run result. -/
def run_update_marker_written (ret : RunReturn) : Bool :=
  ret.retOk

/-- The non-key columns of one `stock_data` row as stored by the
`INSERT OR REPLACE` of `insert_dataframe_chunked` (lines 147-162):
the four prices, the volume, and the `is_missing` flag set uniformly for the
whole batch (line 133). -/
structure StoredRow where
  openPrice : Option ℚ
  highPrice : Option ℚ
  lowPrice : Option ℚ
  closePrice : Option ℚ
  volume : Option ℤ
  is_missing : Bool
  deriving DecidableEq, Repr

/-- The `stock_data` table as a map from its `(ticker, date)` primary key
(schema in `DatabaseManager._create_tables`, lines 63-79) to the stored
columns. -/
def Table := String × ℤ → Option StoredRow

/-- The stored columns produced from an input row with the batch's
`is_missing` flag. -/
def storedOf (is_missing : Bool) (r : Row) : StoredRow :=
  ⟨r.openPrice, r.highPrice, r.lowPrice, r.closePrice, r.volume, is_missing⟩

/-- One `INSERT OR REPLACE INTO stock_data` statement (lines 147-162): the
row keyed `(ticker, date)` is inserted, replacing any existing row with the
same primary key. -/
def upsertRow (is_missing : Bool) (t : Table) (r : Row) : Table :=
  fun k => if k = (r.ticker, r.date) then some (storedOf is_missing r) else t k

/-- The state effect of `insert_dataframe_chunked` on the `stock_data` table
(lines 135-170): the rows are processed in order; a row whose individual
insert raises is skipped (lines 165-166), every other row is upserted.  The
fixed-size chunks are committed in the same order, so the sequential fold is
the final state. -/
def insertRows (rowOk : RowOk) (is_missing : Bool) (t : Table) :
    List Row → Table
  | [] => t
  | r :: rs =>
    insertRows rowOk is_missing (if rowOk r then upsertRow is_missing t r else t) rs

/-! ### Classification and aggregation predicates (proof infrastructure) -/

/-- Whether the planner classifies a symbol as needing a full fetch. -/
def isFullB (cfg : PlanConfig) (db : String → Option (Option ℤ))
    (s : String) : Bool :=
  match classify_symbol cfg (db (tickerOf s)) with
  | .fullFetch => true
  | _ => false

/-- Whether the planner classifies a symbol as needing an incremental update. -/
def isUpdB (cfg : PlanConfig) (db : String → Option (Option ℤ))
    (s : String) : Bool :=
  match classify_symbol cfg (db (tickerOf s)) with
  | .update _ => true
  | _ => false

/-- Whether the planner classifies a symbol as up to date. -/
def isUpToB (cfg : PlanConfig) (db : String → Option (Option ℤ))
    (s : String) : Bool :=
  match classify_symbol cfg (db (tickerOf s)) with
  | .upToDate => true
  | _ => false

/-- Whether a symbol's task counts as a successful fetch in the aggregation
loop: a normal return with a non-empty DataFrame. -/
def isSuccB (fetch : String → FetchOutcome) (s : String) : Bool :=
  match fetch s with
  | .ok rows => !rows.isEmpty
  | .raised => false

/-- Whether a symbol's task re-raised an exception. -/
def isRaisedB (fetch : String → FetchOutcome) (s : String) : Bool :=
  match fetch s with
  | .ok _ => false
  | .raised => true

/-- Whether a symbol's task returned normally but with no rows (`None` or an
empty DataFrame): counted as a failure only in full-refresh mode, silently
uncounted in incremental mode. -/
def isEmptyOkB (fetch : String → FetchOutcome) (s : String) : Bool :=
  match fetch s with
  | .ok rows => rows.isEmpty
  | .raised => false

/-- The `all_data` list accumulated by the aggregation loop over a given
completion order: the non-empty per-symbol DataFrames, in completion order. -/
def collected (fetch : String → FetchOutcome) (order : List String) :
    List (List Row) :=
  order.filterMap fun s =>
    match fetch s with
    | .ok rows => if rows.isEmpty then none else some rows
    | .raised => none

/-! ### Concrete evaluation scenarios (used by witnesses and counterexamples) -/

/-- A concrete normalized row for ticker `A`. -/
def rowA : Row := ⟨"A", 41, none, none, none, none, none⟩

/-- Concrete configuration: history start day 0, configured end day 50,
current day 100. -/
def cfgC : PlanConfig := ⟨0, 50, 100⟩

/-- Storage state: every ticker has latest stored day 40
(gap 10 > 3, so every symbol needs an incremental update under `cfgC`). -/
def dbC : String → Option (Option ℤ) := fun _ => some (some 40)

/-- Storage state: no ticker has any stored rows (full fetch for all). -/
def dbN : String → Option (Option ℤ) := fun _ => none

/-- Storage state: every ticker has latest stored day 49
(gap 1 ≤ 3, so every symbol is up to date under `cfgC`). -/
def dbU : String → Option (Option ℤ) := fun _ => some (some 49)

/-- Storage state: every ticker has latest stored day 47, which is exactly
`cfgC.endD - 3`. -/
def dbGap3 : String → Option (Option ℤ) := fun _ => some (some 47)

/-- Storage state: every ticker has latest stored day 46, which is exactly
`cfgC.endD - 4`. -/
def dbGap4 : String → Option (Option ℤ) := fun _ => some (some 46)

/-- Provider behaviour: symbol `A.NS` yields one row, every other symbol
yields nothing (a caught provider failure or an empty response). -/
def fetchC : String → FetchOutcome := fun s =>
  if s = "A.NS" then .ok [rowA] else .ok []

/-- Per-row insert success: every row inserts. -/
def rowOkTrue : RowOk := fun _ => true

/-- Per-row insert failure: every row's insert raises and is skipped. -/
def rowOkFalse : RowOk := fun _ => false

/-- A concrete two-symbol universe. -/
def symsC : List String := ["A.NS", "B.NS"]

/-! ### Planner lemmas -/

theorem buildPlan_full_fetch_eq (cfg : PlanConfig)
    (db : String → Option (Option ℤ)) :
    ∀ l : List String,
      (buildPlan cfg db l).symbols_needing_full_fetch = l.filter (isFullB cfg db)
  | [] => rfl
  | s :: rest => by
    have ih := buildPlan_full_fetch_eq cfg db rest
    cases hc : classify_symbol cfg (db (tickerOf s)) <;>
      simp [buildPlan, hc, List.filter_cons, isFullB, ih]

theorem buildPlan_update_eq (cfg : PlanConfig)
    (db : String → Option (Option ℤ)) :
    ∀ l : List String,
      (buildPlan cfg db l).symbols_needing_update = l.filter (isUpdB cfg db)
  | [] => rfl
  | s :: rest => by
    have ih := buildPlan_update_eq cfg db rest
    cases hc : classify_symbol cfg (db (tickerOf s)) <;>
      simp [buildPlan, hc, List.filter_cons, isUpdB, ih]

theorem buildPlan_up_to_date_eq (cfg : PlanConfig)
    (db : String → Option (Option ℤ)) :
    ∀ l : List String,
      (buildPlan cfg db l).symbols_up_to_date = l.filter (isUpToB cfg db)
  | [] => rfl
  | s :: rest => by
    have ih := buildPlan_up_to_date_eq cfg db rest
    cases hc : classify_symbol cfg (db (tickerOf s)) <;>
      simp [buildPlan, hc, List.filter_cons, isUpToB, ih]

/-- Exactly one of the three classification predicates holds per symbol. -/
theorem classify_exclusive (cfg : PlanConfig)
    (db : String → Option (Option ℤ)) (s : String) :
    (isFullB cfg db s = true ∧ isUpdB cfg db s = false ∧ isUpToB cfg db s = false)
    ∨ (isFullB cfg db s = false ∧ isUpdB cfg db s = true ∧ isUpToB cfg db s = false)
    ∨ (isFullB cfg db s = false ∧ isUpdB cfg db s = false ∧ isUpToB cfg db s = true) := by
  cases hc : classify_symbol cfg (db (tickerOf s)) <;>
    simp [isFullB, isUpdB, isUpToB, hc]

/-- The three classification lists of the planning loop concatenate to a
permutation of the input symbol list. -/
theorem buildPlan_perm (cfg : PlanConfig) (db : String → Option (Option ℤ)) :
    ∀ l : List String,
      ((buildPlan cfg db l).symbols_needing_full_fetch ++
        (buildPlan cfg db l).symbols_needing_update ++
        (buildPlan cfg db l).symbols_up_to_date).Perm l
  | [] => List.Perm.refl _
  | s :: rest => by
    have ih := buildPlan_perm cfg db rest
    cases hc : classify_symbol cfg (db (tickerOf s))
    · simp only [buildPlan, hc]
      exact ih.cons s
    · simp only [buildPlan, hc]
      rw [List.append_assoc, List.cons_append]
      exact List.Perm.trans List.perm_middle
        (by rw [← List.append_assoc]; exact ih.cons s)
    · simp only [buildPlan, hc]
      exact List.Perm.trans List.perm_middle (ih.cons s)

/-- The symbols submitted to the pool are never more numerous than the
universe. -/
theorem symbolsToProcess_length_le (cfg : PlanConfig)
    (dbResult : Option (String → Option (Option ℤ)))
    (symbols : List String) (full_refresh : Bool) :
    (symbolsToProcess cfg dbResult symbols full_refresh).length ≤ symbols.length := by
  unfold symbolsToProcess get_update_plan
  cases full_refresh
  · by_cases he : symbols.isEmpty
    · simp [he]
    · cases dbResult with
      | none => simp [he]
      | some db =>
        have hp := (buildPlan_perm cfg db symbols).length_eq
        simp only [List.length_append] at hp
        simp only [he, Bool.false_eq_true, if_false, List.length_append]
        omega
  · simp

/-- If the submitted symbol list is non-empty then so is the universe. -/
theorem symbolsToProcess_ne_nil (cfg : PlanConfig)
    (dbResult : Option (String → Option (Option ℤ)))
    (symbols : List String) (full_refresh : Bool)
    (h : symbolsToProcess cfg dbResult symbols full_refresh ≠ []) :
    symbols.isEmpty = false := by
  by_contra hcon
  have hsym : symbols = [] := by
    cases symbols with
    | nil => rfl
    | cons a l => simp [List.isEmpty] at hcon
  subst hsym
  apply h
  unfold symbolsToProcess get_update_plan
  cases full_refresh <;> simp

/-! ### Aggregation-loop lemmas -/

/-- A raised task contributes nothing to `all_data`. -/
theorem collected_cons_raised {fetch : String → FetchOutcome} {s : String}
    (rest : List String) (hf : fetch s = .raised) :
    collected fetch (s :: rest) = collected fetch rest := by
  simp only [collected, List.filterMap_cons, hf]

/-- A task returning no rows contributes nothing to `all_data`. -/
theorem collected_cons_empty {fetch : String → FetchOutcome} {s : String}
    {rows : List Row} (rest : List String) (hf : fetch s = .ok rows)
    (he : rows.isEmpty = true) :
    collected fetch (s :: rest) = collected fetch rest := by
  simp only [collected, List.filterMap_cons, hf, he]
  simp

/-- A task returning rows contributes its DataFrame to `all_data`. -/
theorem collected_cons_ok {fetch : String → FetchOutcome} {s : String}
    {rows : List Row} (rest : List String) (hf : fetch s = .ok rows)
    (he : rows.isEmpty = false) :
    collected fetch (s :: rest) = rows :: collected fetch rest := by
  simp only [collected, List.filterMap_cons, hf, he]
  simp

/-- Successful-fetch counter of the aggregation loop, from an arbitrary
accumulator. -/
theorem foldl_aggStep_successful (full_refresh : Bool)
    (fetch : String → FetchOutcome) :
    ∀ (order : List String) (st : AggState),
      (order.foldl (aggStep full_refresh fetch) st).successful_fetches =
        st.successful_fetches + order.countP (isSuccB fetch)
  | [], st => by simp
  | s :: rest, st => by
    have ih := foldl_aggStep_successful full_refresh fetch rest
    simp only [List.foldl_cons, ih, List.countP_cons]
    cases hf : fetch s with
    | raised => simp [aggStep, hf, isSuccB]
    | ok rows =>
      cases he : rows.isEmpty <;> cases full_refresh <;>
        simp [aggStep, hf, he, isSuccB] <;> omega

/-- Failed-fetch counter of the aggregation loop, from an arbitrary
accumulator. -/
theorem foldl_aggStep_failed (full_refresh : Bool)
    (fetch : String → FetchOutcome) :
    ∀ (order : List String) (st : AggState),
      (order.foldl (aggStep full_refresh fetch) st).failed_fetches =
        st.failed_fetches + order.countP (isRaisedB fetch) +
          (if full_refresh then order.countP (isEmptyOkB fetch) else 0)
  | [], st => by simp
  | s :: rest, st => by
    have ih := foldl_aggStep_failed full_refresh fetch rest
    simp only [List.foldl_cons, ih, List.countP_cons]
    cases hf : fetch s with
    | raised =>
      cases full_refresh <;>
        · simp [aggStep, hf, isRaisedB, isEmptyOkB]
          omega
    | ok rows =>
      cases he : rows.isEmpty <;> cases full_refresh
      all_goals simp [aggStep, hf, he, isRaisedB, isEmptyOkB]
      all_goals omega

/-- Accumulated `all_data` of the aggregation loop, from an arbitrary
accumulator. -/
theorem foldl_aggStep_all_data (full_refresh : Bool)
    (fetch : String → FetchOutcome) :
    ∀ (order : List String) (st : AggState),
      (order.foldl (aggStep full_refresh fetch) st).all_data =
        st.all_data ++ collected fetch order
  | [], st => by simp [collected]
  | s :: rest, st => by
    have ih := foldl_aggStep_all_data full_refresh fetch rest
    simp only [List.foldl_cons, ih]
    cases hf : fetch s with
    | raised =>
      rw [collected_cons_raised rest hf]
      simp [aggStep, hf]
    | ok rows =>
      cases he : rows.isEmpty
      · rw [collected_cons_ok rest hf he]
        simp [aggStep, hf, he, List.append_assoc]
      · rw [collected_cons_empty rest hf he]
        cases full_refresh <;> simp [aggStep, hf, he]

/-- `successful_fetches` of the completed aggregation. -/
theorem aggregate_successful (full_refresh : Bool)
    (fetch : String → FetchOutcome) (order : List String) :
    (aggregate full_refresh fetch order).successful_fetches =
      order.countP (isSuccB fetch) := by
  simpa [aggregate] using
    foldl_aggStep_successful full_refresh fetch order ⟨0, 0, []⟩

/-- `failed_fetches` of the completed aggregation. -/
theorem aggregate_failed (full_refresh : Bool)
    (fetch : String → FetchOutcome) (order : List String) :
    (aggregate full_refresh fetch order).failed_fetches =
      order.countP (isRaisedB fetch) +
        (if full_refresh then order.countP (isEmptyOkB fetch) else 0) := by
  simpa [aggregate] using
    foldl_aggStep_failed full_refresh fetch order ⟨0, 0, []⟩

/-- `all_data` of the completed aggregation. -/
theorem aggregate_all_data (full_refresh : Bool)
    (fetch : String → FetchOutcome) (order : List String) :
    (aggregate full_refresh fetch order).all_data = collected fetch order := by
  simpa [aggregate] using
    foldl_aggStep_all_data full_refresh fetch order ⟨0, 0, []⟩

/-- Every symbol's outcome falls in exactly one of the three counters. -/
theorem countP_outcome_partition (fetch : String → FetchOutcome) :
    ∀ order : List String,
      order.countP (isSuccB fetch) + order.countP (isRaisedB fetch) +
        order.countP (isEmptyOkB fetch) = order.length
  | [] => rfl
  | s :: rest => by
    have ih := countP_outcome_partition fetch rest
    cases hf : fetch s with
    | raised =>
      simp [List.countP_cons, isSuccB, isRaisedB, isEmptyOkB, hf]
      omega
    | ok rows =>
      cases he : rows.isEmpty <;>
        simp [List.countP_cons, isSuccB, isRaisedB, isEmptyOkB, hf, he] <;>
        omega

/-- Sum of per-symbol DataFrame lengths collected over the completion order:
symbols yielding no rows (and raised tasks) contribute zero. -/
theorem collected_length_sum (fetch : String → FetchOutcome) :
    ∀ order : List String,
      ((collected fetch order).map List.length).sum =
        (order.map fun s => ((fetch s).rowsOf).length).sum
  | [] => rfl
  | s :: rest => by
    have ih := collected_length_sum fetch rest
    cases hf : fetch s with
    | raised =>
      rw [collected_cons_raised rest hf]
      simp [hf, FetchOutcome.rowsOf, ih]
    | ok rows =>
      cases he : rows.isEmpty
      · rw [collected_cons_ok rest hf he]
        simp [hf, FetchOutcome.rowsOf, ih]
      · rw [collected_cons_empty rest hf he]
        have hnil : rows = [] := List.isEmpty_iff.mp he
        simp [hf, FetchOutcome.rowsOf, ih, hnil]

/-- The combined DataFrame's length is the sum over the completion order of
the per-symbol normalized row counts. -/
theorem collected_flatten_length (fetch : String → FetchOutcome)
    (order : List String) :
    ((collected fetch order).flatten).length =
      (order.map fun s => ((fetch s).rowsOf).length).sum := by
  rw [List.length_flatten, collected_length_sum]

/-- Membership in the combined DataFrame. -/
theorem mem_collected_flatten (fetch : String → FetchOutcome)
    (order : List String) (r : Row) :
    r ∈ (collected fetch order).flatten ↔
      ∃ s ∈ order, r ∈ (fetch s).rowsOf := by
  simp only [List.mem_flatten, collected, List.mem_filterMap]
  constructor
  · rintro ⟨l, ⟨s, hs, hEq⟩, hr⟩
    refine ⟨s, hs, ?_⟩
    cases hf : fetch s with
    | raised => simp [hf] at hEq
    | ok rows =>
      simp only [hf] at hEq
      cases he : rows.isEmpty <;> simp [he] at hEq
      simpa [FetchOutcome.rowsOf, hEq] using hr
  · rintro ⟨s, hs, hr⟩
    cases hf : fetch s with
    | raised => simp [hf, FetchOutcome.rowsOf] at hr
    | ok rows =>
      refine ⟨rows, ⟨s, hs, ?_⟩, by simpa [hf, FetchOutcome.rowsOf] using hr⟩
      have hne : rows.isEmpty = false := by
        cases he : rows.isEmpty
        · rfl
        · have : rows = [] := List.isEmpty_iff.mp he
          simp [hf, FetchOutcome.rowsOf, this] at hr
      simp [hf, hne]

/-- The `all_data` list is empty iff no symbol's fetch produced rows. -/
theorem collected_eq_nil_iff (fetch : String → FetchOutcome)
    (order : List String) :
    collected fetch order = [] ↔ ∀ s ∈ order, isSuccB fetch s = false := by
  simp only [collected, List.filterMap_eq_nil_iff]
  constructor
  · intro h s hs
    have := h s hs
    cases hf : fetch s with
    | raised => simp [isSuccB, hf]
    | ok rows =>
      simp only [hf] at this
      cases he : rows.isEmpty
      · simp [he] at this
      · simp [isSuccB, hf, he]
  · intro h s hs
    have := h s hs
    cases hf : fetch s with
    | raised => simp [hf]
    | ok rows =>
      simp only [isSuccB, hf] at this
      have hnil : rows = [] := by simpa using this
      simp [hf, hnil]

/-! ### Coordinator branch characterizations -/

/-- The all-up-to-date early return of `fetch_all_stocks_concurrent`
(lines 167-179). -/
theorem run_upToDate_eq (cfg : PlanConfig)
    (dbResult : Option (String → Option (Option ℤ))) (rowOk : RowOk)
    (fetch : String → FetchOutcome) (symbols : List String)
    (order : List String)
    (hsym : symbols.isEmpty = false)
    (hstp : (symbolsToProcess cfg dbResult symbols false).isEmpty = true) :
    fetch_all_stocks_concurrent cfg dbResult rowOk fetch symbols false order =
      ⟨true,
        .okUpToDate
          ⟨true, false, symbols.length, 0, 0,
            (get_update_plan cfg dbResult symbols).symbols_up_to_date.length, 0⟩,
        false, []⟩ := by
  unfold fetch_all_stocks_concurrent
  rw [hsym]
  simp [hstp]

/-- The main return of `fetch_all_stocks_concurrent` when at least one symbol
produced rows (lines 226-264). -/
theorem run_finished_eq (cfg : PlanConfig)
    (dbResult : Option (String → Option (Option ℤ))) (rowOk : RowOk)
    (fetch : String → FetchOutcome) (symbols : List String)
    (full_refresh : Bool) (order : List String)
    (hsym : symbols.isEmpty = false)
    (hcond : full_refresh = true ∨
      (symbolsToProcess cfg dbResult symbols full_refresh).isEmpty = false)
    (hdata : (collected fetch order).isEmpty = false) :
    fetch_all_stocks_concurrent cfg dbResult rowOk fetch symbols full_refresh
        order =
      ⟨insert_dataframe_chunked rowOk ((collected fetch order).flatten),
        .finished
          ⟨insert_dataframe_chunked rowOk ((collected fetch order).flatten),
            full_refresh, symbols.length,
            order.countP (isSuccB fetch),
            order.countP (isRaisedB fetch) +
              (if full_refresh then order.countP (isEmptyOkB fetch) else 0),
            (if full_refresh then 0
              else symbols.length -
                (symbolsToProcess cfg dbResult symbols full_refresh).length),
            ((collected fetch order).flatten).length⟩,
        true, (collected fetch order).flatten⟩ := by
  unfold fetch_all_stocks_concurrent
  rw [hsym]
  have hif : ¬(¬full_refresh = true ∧
      (symbolsToProcess cfg dbResult symbols full_refresh).isEmpty = true) := by
    rcases hcond with h | h
    · simp [h]
    · simp [h]
  simp only [Bool.false_eq_true, if_false, if_neg hif]
  rw [aggregate_all_data]
  simp only [hdata, Bool.false_eq_true, if_false]
  rw [aggregate_successful, aggregate_failed]

/-- The "no data fetched" error return of `fetch_all_stocks_concurrent`
(lines 269-274). -/
theorem run_noData_eq (cfg : PlanConfig)
    (dbResult : Option (String → Option (Option ℤ))) (rowOk : RowOk)
    (fetch : String → FetchOutcome) (symbols : List String)
    (full_refresh : Bool) (order : List String)
    (hsym : symbols.isEmpty = false)
    (hcond : full_refresh = true ∨
      (symbolsToProcess cfg dbResult symbols full_refresh).isEmpty = false)
    (hdata : (collected fetch order).isEmpty = true) :
    fetch_all_stocks_concurrent cfg dbResult rowOk fetch symbols full_refresh
        order =
      ⟨false,
        .errNoData
          (order.countP (isRaisedB fetch) +
            (if full_refresh then order.countP (isEmptyOkB fetch) else 0)),
        false, []⟩ := by
  unfold fetch_all_stocks_concurrent
  rw [hsym]
  have hif : ¬(¬full_refresh = true ∧
      (symbolsToProcess cfg dbResult symbols full_refresh).isEmpty = true) := by
    rcases hcond with h | h
    · simp [h]
    · simp [h]
  simp only [Bool.false_eq_true, if_false, if_neg hif]
  rw [aggregate_all_data]
  simp only [hdata, if_true]
  rw [aggregate_failed]

/-! ### Storage upsert lemmas -/

/-- A batch leaves the table unchanged at keys none of its (insertable) rows
carry. -/
theorem insertRows_apply_of_no_key (rowOk : RowOk) (im : Bool) :
    ∀ (rows : List Row) (t : Table) (k : String × ℤ),
      (∀ r ∈ rows, rowOk r = true → (r.ticker, r.date) ≠ k) →
      insertRows rowOk im t rows k = t k
  | [], _, _, _ => rfl
  | r :: rs, t, k, h => by
    simp only [insertRows]
    rw [insertRows_apply_of_no_key rowOk im rs _ k
      (fun r' hr' => h r' (List.mem_cons_of_mem _ hr'))]
    by_cases ho : rowOk r = true
    · have hk := h r (List.mem_cons_self r rs) ho
      simp only [ho, if_true, upsertRow]
      rw [if_neg (fun hkk => hk hkk.symm)]
    · simp [ho]

/-- At a key written by some insertable row of the batch, the final value
does not depend on the initial table. -/
theorem insertRows_apply_indep (rowOk : RowOk) (im : Bool) :
    ∀ (rows : List Row) (t t' : Table) (k : String × ℤ),
      (∃ r ∈ rows, rowOk r = true ∧ (r.ticker, r.date) = k) →
      insertRows rowOk im t rows k = insertRows rowOk im t' rows k
  | [], _, _, _, h => by simp at h
  | r :: rs, t, t', k, h => by
    simp only [insertRows]
    by_cases hrs : ∃ r' ∈ rs, rowOk r' = true ∧ (r'.ticker, r'.date) = k
    · exact insertRows_apply_indep rowOk im rs _ _ k hrs
    · have hno : ∀ r' ∈ rs, rowOk r' = true → (r'.ticker, r'.date) ≠ k :=
        fun r' hr' ho' hk => hrs ⟨r', hr', ho', hk⟩
      rcases h with ⟨r0, hr0, hok0, hkey0⟩
      rcases List.mem_cons.mp hr0 with h0 | h0
      · subst h0
        rw [insertRows_apply_of_no_key rowOk im rs _ k hno,
          insertRows_apply_of_no_key rowOk im rs _ k hno]
        simp only [hok0, if_true, upsertRow]
        rw [if_pos hkey0.symm, if_pos hkey0.symm]
      · exact absurd ⟨r0, h0, hok0, hkey0⟩ hrs

/-- C7: submitting the same batch of rows to the chunked bulk upsert twice
leaves the `stock_data` table in exactly the same final state as submitting
it once, because every per-row write is an `INSERT OR REPLACE` keyed on the
`(ticker, date)` primary key (and the per-row skip of uninsertable rows is
deterministic). -/
theorem claim_C7_idempotent_upsert (rowOk : RowOk) (im : Bool) (t : Table)
    (rows : List Row) :
    insertRows rowOk im (insertRows rowOk im t rows) rows =
      insertRows rowOk im t rows := by
  funext k
  by_cases h : ∃ r ∈ rows, rowOk r = true ∧ (r.ticker, r.date) = k
  · exact insertRows_apply_indep rowOk im rows _ t k h
  · have hno : ∀ r ∈ rows, rowOk r = true → (r.ticker, r.date) ≠ k :=
      fun r hr ho hk => h ⟨r, hr, ho, hk⟩
    rw [insertRows_apply_of_no_key rowOk im rows _ k hno]

/-- C5: the fetcher trims any end date that is today or later down to
yesterday, so no produced range ends on or after the current day; when the
nominal end date is today or later the effective end date is exactly
yesterday; and if the start is past yesterday the fetch is skipped. -/
theorem claim_C5_today_exclusion (today startD endD : ℤ) :
    (∀ s e, fetch_single_stock_range today startD endD = some (s, e) →
      e < today)
    ∧ (endD ≥ today →
        ∀ s e, fetch_single_stock_range today startD endD = some (s, e) →
          s = startD ∧ e = today - 1)
    ∧ (endD ≥ today → startD > today - 1 →
        fetch_single_stock_range today startD endD = none) := by
  refine ⟨?_, ?_, ?_⟩
  · intro s e he
    simp only [fetch_single_stock_range] at he
    by_cases h1 : endD ≥ today <;> by_cases h2 : startD > today - 1 <;>
      by_cases h3 : startD > endD <;>
      simp [h1, h2, h3] at he <;> omega
  · intro h1 s e he
    simp only [fetch_single_stock_range, if_pos h1] at he
    by_cases h2 : startD > today - 1
    · simp [h2] at he
    · simp [h2] at he
      omega
  · intro h1 h2
    simp only [fetch_single_stock_range, if_pos h1]
    rw [if_pos h2]

/-- Witness for C5 at a concrete input: today = 100, configured end = 100
(i.e. today), start 40 produces the range ending on day 99 = yesterday, and
start 101 produces no fetch. -/
theorem claim_C5_witness :
    fetch_single_stock_range 100 101 100 = none
    ∧ ((40 : ℤ) = 40 ∧ (99 : ℤ) = 100 - 1) := by
  constructor
  · exact (claim_C5_today_exclusion 100 101 100).2.2 (by norm_num) (by norm_num)
  · exact (claim_C5_today_exclusion 100 40 100).2.1 (by norm_num) 40 99 (by decide)

/-- C9: when the body of `get_update_plan` raises, the planner neither
propagates the exception nor drops a symbol — every symbol in the universe is
classified needs-full-fetch with the full configured range — and when the
latest-date query raises, `get_latest_dates` maps every requested ticker to
`None` instead of raising. -/
theorem claim_C9_failure_fallback (cfg : PlanConfig)
    (symbols tickers : List String) :
    ((get_update_plan cfg none symbols).symbols_needing_full_fetch = symbols
      ∧ (get_update_plan cfg none symbols).symbols_needing_update = []
      ∧ (get_update_plan cfg none symbols).symbols_up_to_date = []
      ∧ ∀ s ∈ symbols,
          (get_update_plan cfg none symbols).update_ranges s =
            some (cfg.startD, cfg.endD))
    ∧ get_latest_dates none tickers = tickers.map fun t => (t, none) := by
  constructor
  · cases he : symbols.isEmpty
    · refine ⟨?_, ?_, ?_, ?_⟩
      · simp [get_update_plan, he]
      · simp [get_update_plan, he]
      · simp [get_update_plan, he]
      · intro s hs
        simp [get_update_plan, he, hs]
    · have hnil : symbols = [] := List.isEmpty_iff.mp he
      subst hnil
      simp [get_update_plan]
  · rfl

/-- Witness for C9 at a concrete universe. -/
theorem claim_C9_witness :
    (get_update_plan cfgC none symsC).symbols_needing_full_fetch = symsC
    ∧ (get_update_plan cfgC none symsC).update_ranges "A.NS" =
        some (cfgC.startD, cfgC.endD) := by
  have h := claim_C9_failure_fallback cfgC symsC symsC
  exact ⟨h.1.1, h.1.2.2.2 "A.NS" (by simp [symsC])⟩

/-- Two filters of the same list by mutually exclusive predicates share no
element. -/
theorem filter_disjoint_of_exclusive {α : Type} {p q : α → Bool}
    (l : List α) (h : ∀ a, ¬(p a = true ∧ q a = true)) :
    (l.filter p).Disjoint (l.filter q) := fun a ha hb =>
  h a ⟨(List.mem_filter.mp ha).2, (List.mem_filter.mp hb).2⟩

/-- C3: for every (duplicate-free) symbol universe and every storage state,
the planner's three output lists are pairwise disjoint, duplicate-free, and
concatenate to a permutation of the universe — every symbol is classified
exactly once. -/
theorem claim_C3_plan_partition (cfg : PlanConfig)
    (db : String → Option (Option ℤ)) (symbols : List String)
    (hnd : symbols.Nodup) :
    ((get_update_plan cfg (some db) symbols).symbols_needing_full_fetch ++
      (get_update_plan cfg (some db) symbols).symbols_needing_update ++
      (get_update_plan cfg (some db) symbols).symbols_up_to_date).Perm symbols
    ∧ ((get_update_plan cfg (some db) symbols).symbols_needing_full_fetch).Disjoint
        ((get_update_plan cfg (some db) symbols).symbols_needing_update)
    ∧ ((get_update_plan cfg (some db) symbols).symbols_needing_full_fetch).Disjoint
        ((get_update_plan cfg (some db) symbols).symbols_up_to_date)
    ∧ ((get_update_plan cfg (some db) symbols).symbols_needing_update).Disjoint
        ((get_update_plan cfg (some db) symbols).symbols_up_to_date)
    ∧ ((get_update_plan cfg (some db) symbols).symbols_needing_full_fetch).Nodup
    ∧ ((get_update_plan cfg (some db) symbols).symbols_needing_update).Nodup
    ∧ ((get_update_plan cfg (some db) symbols).symbols_up_to_date).Nodup := by
  cases he : symbols.isEmpty
  · have hproj1 :
        (get_update_plan cfg (some db) symbols).symbols_needing_full_fetch =
          (buildPlan cfg db symbols).symbols_needing_full_fetch := by
      simp [get_update_plan, he]
    have hproj2 :
        (get_update_plan cfg (some db) symbols).symbols_needing_update =
          (buildPlan cfg db symbols).symbols_needing_update := by
      simp [get_update_plan, he]
    have hproj3 :
        (get_update_plan cfg (some db) symbols).symbols_up_to_date =
          (buildPlan cfg db symbols).symbols_up_to_date := by
      simp [get_update_plan, he]
    rw [hproj1, hproj2, hproj3, buildPlan_full_fetch_eq, buildPlan_update_eq,
      buildPlan_up_to_date_eq]
    refine ⟨?_, ?_, ?_, ?_, hnd.filter _, hnd.filter _, hnd.filter _⟩
    · rw [← buildPlan_full_fetch_eq, ← buildPlan_update_eq,
        ← buildPlan_up_to_date_eq]
      exact buildPlan_perm cfg db symbols
    · refine filter_disjoint_of_exclusive symbols fun a hpq => ?_
      rcases classify_exclusive cfg db a with ⟨h1, h2, h3⟩ | ⟨h1, h2, h3⟩ | ⟨h1, h2, h3⟩ <;>
        simp_all
    · refine filter_disjoint_of_exclusive symbols fun a hpq => ?_
      rcases classify_exclusive cfg db a with ⟨h1, h2, h3⟩ | ⟨h1, h2, h3⟩ | ⟨h1, h2, h3⟩ <;>
        simp_all
    · refine filter_disjoint_of_exclusive symbols fun a hpq => ?_
      rcases classify_exclusive cfg db a with ⟨h1, h2, h3⟩ | ⟨h1, h2, h3⟩ | ⟨h1, h2, h3⟩ <;>
        simp_all
  · have hnil : symbols = [] := List.isEmpty_iff.mp he
    subst hnil
    simp [get_update_plan, List.Disjoint]

/-- Witness for C3 on a concrete universe and storage state. -/
theorem claim_C3_witness :
    ((get_update_plan cfgC (some dbC) symsC).symbols_needing_full_fetch ++
      (get_update_plan cfgC (some dbC) symsC).symbols_needing_update ++
      (get_update_plan cfgC (some dbC) symsC).symbols_up_to_date).Perm symsC :=
  (claim_C3_plan_partition cfgC dbC symsC (by decide)).1

/-- C4: for a symbol with stored data whose candidate start date (latest+1)
is not after today, a latest stored date of exactly `end − 3` classifies as
up-to-date with no range, while `end − 4` classifies as
needs-incremental-fetch with range `[latest + 1, end]`. -/
theorem claim_C4_gap_boundary (cfg : PlanConfig)
    (db : String → Option (Option ℤ)) (sym : String) (l : ℤ)
    (hdb : db (tickerOf sym) = some (some l)) (htoday : l + 1 ≤ cfg.today) :
    (l = cfg.endD - 3 →
      (get_update_plan cfg (some db) [sym]).symbols_up_to_date = [sym]
      ∧ (get_update_plan cfg (some db) [sym]).symbols_needing_update = []
      ∧ (get_update_plan cfg (some db) [sym]).update_ranges sym = none)
    ∧ (l = cfg.endD - 4 →
      (get_update_plan cfg (some db) [sym]).symbols_needing_update = [sym]
      ∧ (get_update_plan cfg (some db) [sym]).symbols_up_to_date = []
      ∧ (get_update_plan cfg (some db) [sym]).update_ranges sym =
          some (l + 1, cfg.endD)) := by
  constructor
  · intro hl
    have hgap : ¬(cfg.endD - l > 3) := by omega
    have hcl : classify_symbol cfg (db (tickerOf sym)) = .upToDate := by
      rw [hdb]
      simp only [classify_symbol, if_pos htoday, if_neg hgap]
    refine ⟨?_, ?_, ?_⟩ <;>
      simp [get_update_plan, buildPlan, hcl]
  · intro hl
    have hgap : cfg.endD - l > 3 := by omega
    have hcl : classify_symbol cfg (db (tickerOf sym)) =
        .update (l + 1, cfg.endD) := by
      rw [hdb]
      simp only [classify_symbol, if_pos htoday, if_pos hgap]
    refine ⟨?_, ?_, ?_⟩ <;>
      simp [get_update_plan, buildPlan, hcl]

/-- Witness for C4 at concrete dates: configured end day 50, today 100,
latest 47 = end − 3 (up to date) and latest 46 = end − 4 (incremental fetch
over [47, 50]). -/
theorem claim_C4_witness :
    ((get_update_plan cfgC (some dbGap3) ["S"]).symbols_up_to_date = ["S"]
      ∧ (get_update_plan cfgC (some dbGap3) ["S"]).update_ranges "S" = none)
    ∧ ((get_update_plan cfgC (some dbGap4) ["S"]).symbols_needing_update = ["S"]
      ∧ (get_update_plan cfgC (some dbGap4) ["S"]).update_ranges "S" =
          some (47, 50)) := by
  have h3 := (claim_C4_gap_boundary cfgC dbGap3 "S" 47 rfl (by decide)).1 (by decide)
  have h4 := (claim_C4_gap_boundary cfgC dbGap4 "S" 46 rfl (by decide)).2 (by decide)
  exact ⟨⟨h3.1, h3.2.2⟩, ⟨h4.1, h4.2.2⟩⟩

/-- C6: when incremental planning classifies every symbol as up-to-date, the
coordinator returns success with zero new rows and a skipped count equal to
the universe size, and the storage write path is never invoked. -/
theorem claim_C6_zero_update (cfg : PlanConfig)
    (db : String → Option (Option ℤ)) (rowOk : RowOk)
    (fetch : String → FetchOutcome) (symbols order : List String)
    (hne : symbols ≠ [])
    (hall : ∀ s ∈ symbols, classify_symbol cfg (db (tickerOf s)) = .upToDate) :
    fetch_all_stocks_concurrent cfg (some db) rowOk fetch symbols false order =
      ⟨true,
        .okUpToDate ⟨true, false, symbols.length, 0, 0, symbols.length, 0⟩,
        false, []⟩ := by
  have hsym : symbols.isEmpty = false := by
    cases symbols
    · exact absurd rfl hne
    · rfl
  have hfull : (buildPlan cfg db symbols).symbols_needing_full_fetch = [] := by
    rw [buildPlan_full_fetch_eq, List.filter_eq_nil_iff]
    intro a ha
    simp [isFullB, hall a ha]
  have hupd : (buildPlan cfg db symbols).symbols_needing_update = [] := by
    rw [buildPlan_update_eq, List.filter_eq_nil_iff]
    intro a ha
    simp [isUpdB, hall a ha]
  have hupto : (buildPlan cfg db symbols).symbols_up_to_date = symbols := by
    rw [buildPlan_up_to_date_eq, List.filter_eq_self]
    intro a ha
    simp [isUpToB, hall a ha]
  have hstp : (symbolsToProcess cfg (some db) symbols false).isEmpty = true := by
    unfold symbolsToProcess get_update_plan
    simp [hsym, hfull, hupd]
  rw [run_upToDate_eq cfg (some db) rowOk fetch symbols order hsym hstp]
  have hlen :
      (get_update_plan cfg (some db) symbols).symbols_up_to_date.length =
        symbols.length := by
    simp [get_update_plan, hsym, hupto]
  rw [hlen]

/-- Witness for C6: under `dbU` every symbol of `symsC` is up to date. -/
theorem claim_C6_witness :
    fetch_all_stocks_concurrent cfgC (some dbU) rowOkTrue fetchC symsC false [] =
      ⟨true, .okUpToDate ⟨true, false, 2, 0, 0, 2, 0⟩, false, []⟩ := by
  have h := claim_C6_zero_update cfgC dbU rowOkTrue fetchC symsC []
    (by decide) (by decide)
  simpa [symsC] using h

/-- If no symbol of a non-empty universe needs processing, the plan's
up-to-date list has the size of the whole universe. -/
theorem upToDate_length_of_stp_empty (cfg : PlanConfig)
    (dbResult : Option (String → Option (Option ℤ))) (symbols : List String)
    (hsym : symbols.isEmpty = false)
    (hstp : (symbolsToProcess cfg dbResult symbols false).isEmpty = true) :
    (get_update_plan cfg dbResult symbols).symbols_up_to_date.length =
      symbols.length := by
  unfold symbolsToProcess at hstp
  cases dbResult with
  | none =>
    simp only [get_update_plan, hsym, Bool.false_eq_true, if_false] at hstp
    rw [List.isEmpty_iff, List.append_eq_nil] at hstp
    rw [hstp.1] at hsym
    simp at hsym
  | some db =>
    simp only [Bool.false_eq_true, if_false, get_update_plan, hsym] at hstp ⊢
    rw [List.isEmpty_iff, List.append_eq_nil] at hstp
    have hp := buildPlan_perm cfg db symbols
    rw [hstp.1, hstp.2] at hp
    simpa using hp.length_eq

/-- C1 (amended): with the submitted symbols processed in any completion
order, whenever the run produces a Run Summary, its
`successful + failed + skipped` counts sum to the universe size N in
full-refresh mode; in incremental mode the sum falls short of N by exactly
the number of processed symbols whose fetch returned no rows (these are
silently uncounted).  In both modes `total_records` equals the sum of the
normalized per-symbol row counts over all fetched symbols. -/
theorem claim_C1_aggregate_counts (cfg : PlanConfig)
    (dbResult : Option (String → Option (Option ℤ))) (rowOk : RowOk)
    (fetch : String → FetchOutcome) (symbols : List String)
    (full_refresh : Bool) (order : List String)
    (hperm : order.Perm (symbolsToProcess cfg dbResult symbols full_refresh))
    (s : RunSummary)
    (hs : (fetch_all_stocks_concurrent cfg dbResult rowOk fetch symbols
        full_refresh order).summaryOf = some s) :
    s.successful_fetches + s.failed_fetches + s.skipped_fetches +
        (if full_refresh then 0 else order.countP (isEmptyOkB fetch)) =
      symbols.length
    ∧ s.total_records = (order.map fun x => ((fetch x).rowsOf).length).sum := by
  cases hsym : symbols.isEmpty with
  | true =>
    exfalso
    have hnil : symbols = [] := List.isEmpty_iff.mp hsym
    subst hnil
    unfold fetch_all_stocks_concurrent at hs
    simp [RunReturn.summaryOf] at hs
  | false =>
    by_cases hup : full_refresh = false ∧
        (symbolsToProcess cfg dbResult symbols full_refresh).isEmpty = true
    · obtain ⟨hfr, hstp⟩ := hup
      subst hfr
      rw [run_upToDate_eq cfg dbResult rowOk fetch symbols order hsym hstp] at hs
      simp only [RunReturn.summaryOf, Option.some.injEq] at hs
      subst hs
      have hord : order = [] := by
        have := hperm
        rw [List.isEmpty_iff.mp hstp] at this
        exact this.eq_nil
      subst hord
      have hlen := upToDate_length_of_stp_empty cfg dbResult symbols hsym hstp
      constructor
      · simpa using hlen
      · simp
    · have hcond : full_refresh = true ∨
          (symbolsToProcess cfg dbResult symbols full_refresh).isEmpty = false := by
        cases hfr : full_refresh
        · subst hfr
          right
          cases hh : (symbolsToProcess cfg dbResult symbols false).isEmpty
          · rfl
          · exact absurd ⟨rfl, hh⟩ hup
        · left; rfl
      cases hdata : (collected fetch order).isEmpty with
      | true =>
        rw [run_noData_eq cfg dbResult rowOk fetch symbols full_refresh order
          hsym hcond hdata] at hs
        simp [RunReturn.summaryOf] at hs
      | false =>
        rw [run_finished_eq cfg dbResult rowOk fetch symbols full_refresh order
          hsym hcond hdata] at hs
        simp only [RunReturn.summaryOf, Option.some.injEq] at hs
        subst hs
        have hlen : order.length =
            (symbolsToProcess cfg dbResult symbols full_refresh).length :=
          hperm.length_eq
        have hle := symbolsToProcess_length_le cfg dbResult symbols full_refresh
        have hpart := countP_outcome_partition fetch order
        constructor
        · cases hfr : full_refresh
          · subst hfr
            simp only [Bool.false_eq_true, if_false]
            omega
          · subst hfr
            have hstp_all : symbolsToProcess cfg dbResult symbols true =
                symbols := by
              unfold symbolsToProcess
              simp
            rw [hstp_all] at hlen
            simp only [if_true]
            omega
        · exact collected_flatten_length fetch order

/-- C1 counterexample: an incremental run over two symbols both needing an
update, where one fetch returns a row and the other returns none — the Run
Summary has successful = 1, failed = 0, skipped = 0, which sum to 1, not
N = 2 (the empty-handed symbol is counted nowhere). -/
theorem claim_C1_counterexample :
    (fetch_all_stocks_concurrent cfgC (some dbC) rowOkTrue fetchC symsC false
        symsC).summaryOf = some ⟨true, false, 2, 1, 0, 0, 1⟩
    ∧ 1 + 0 + 0 ≠ symsC.length := by
  constructor
  · decide
  · decide

/-- Witness for C1 (amended) on a concrete incremental run: the shortfall
term (one empty-handed symbol) restores the sum to N = 2. -/
theorem claim_C1_witness :
    (1 + 0 + 0 +
        (if false then 0 else symsC.countP (isEmptyOkB fetchC)) =
      symsC.length)
    ∧ (1 = (symsC.map fun x => ((fetchC x).rowsOf).length).sum) := by
  have h := claim_C1_aggregate_counts cfgC (some dbC) rowOkTrue fetchC symsC
    false symsC (by decide) ⟨true, false, 2, 1, 0, 0, 1⟩ (by decide)
  simpa using h

/-- C2 (amended): if the provider fetch fails for exactly one symbol `b` of
the N ≥ 2 submitted (the failure is caught inside `fetch_single_stock`,
which returns `None`) and every other submitted symbol yields rows, the run
completes with `successful_fetches = N − 1` and exactly the successful
symbols' rows submitted to the storage write; `failed_fetches` is `1` in
full-refresh mode but `0` in incremental mode, where the caught failure is
silently uncounted. -/
theorem claim_C2_single_failure_isolation (cfg : PlanConfig)
    (dbResult : Option (String → Option (Option ℤ))) (rowOk : RowOk)
    (fetch : String → FetchOutcome) (symbols : List String)
    (full_refresh : Bool) (order : List String) (b : String)
    (hnd : (symbolsToProcess cfg dbResult symbols full_refresh).Nodup)
    (hb : b ∈ symbolsToProcess cfg dbResult symbols full_refresh)
    (hbad : fetch b = .ok [])
    (hgood : ∀ x ∈ symbolsToProcess cfg dbResult symbols full_refresh,
      x ≠ b → ∃ rows, fetch x = .ok rows ∧ rows ≠ [])
    (hperm : order.Perm (symbolsToProcess cfg dbResult symbols full_refresh))
    (hN : 2 ≤ (symbolsToProcess cfg dbResult symbols full_refresh).length) :
    ∃ s, (fetch_all_stocks_concurrent cfg dbResult rowOk fetch symbols
          full_refresh order).outcome = .finished s
      ∧ s.successful_fetches =
          (symbolsToProcess cfg dbResult symbols full_refresh).length - 1
      ∧ s.failed_fetches = (if full_refresh then 1 else 0)
      ∧ (fetch_all_stocks_concurrent cfg dbResult rowOk fetch symbols
          full_refresh order).dbWriteCalled = true
      ∧ ∀ r : Row,
          r ∈ (fetch_all_stocks_concurrent cfg dbResult rowOk fetch symbols
            full_refresh order).written ↔
          ∃ x ∈ symbolsToProcess cfg dbResult symbols full_refresh,
            x ≠ b ∧ r ∈ (fetch x).rowsOf := by
  have hstp_ne : symbolsToProcess cfg dbResult symbols full_refresh ≠ [] := by
    intro h
    rw [h] at hN
    simp at hN
  have hsym : symbols.isEmpty = false :=
    symbolsToProcess_ne_nil cfg dbResult symbols full_refresh hstp_ne
  have hcond : full_refresh = true ∨
      (symbolsToProcess cfg dbResult symbols full_refresh).isEmpty = false := by
    right
    cases hh : (symbolsToProcess cfg dbResult symbols full_refresh).isEmpty
    · rfl
    · exact absurd (List.isEmpty_iff.mp hh) hstp_ne
  have hsucc_b : isSuccB fetch b = false := by simp [isSuccB, hbad]
  have hempty_b : isEmptyOkB fetch b = true := by simp [isEmptyOkB, hbad]
  have hmem_erase : ∀ x ∈ (symbolsToProcess cfg dbResult symbols
      full_refresh).erase b, x ≠ b ∧
        x ∈ symbolsToProcess cfg dbResult symbols full_refresh := by
    intro x hx
    exact (hnd.mem_erase_iff.mp hx)
  have hsucc_erase : ∀ x ∈ (symbolsToProcess cfg dbResult symbols
      full_refresh).erase b, isSuccB fetch x = true := by
    intro x hx
    obtain ⟨hxb, hxs⟩ := hmem_erase x hx
    obtain ⟨rows, hr, hrne⟩ := hgood x hxs hxb
    simp [isSuccB, hr, hrne]
  have hperm_be := List.perm_cons_erase hb
  have hsucc_stp : (symbolsToProcess cfg dbResult symbols
      full_refresh).countP (isSuccB fetch) =
        (symbolsToProcess cfg dbResult symbols full_refresh).length - 1 := by
    rw [hperm_be.countP_eq, List.countP_cons, hsucc_b]
    rw [List.countP_eq_length.mpr hsucc_erase, List.length_erase_of_mem hb]
    simp
  have hsucc_ord : order.countP (isSuccB fetch) =
      (symbolsToProcess cfg dbResult symbols full_refresh).length - 1 := by
    rw [hperm.countP_eq, hsucc_stp]
  have hraised_ord : order.countP (isRaisedB fetch) = 0 := by
    rw [List.countP_eq_zero]
    intro x hx
    have hxs := hperm.mem_iff.mp hx
    by_cases hxb : x = b
    · subst hxb
      simp [isRaisedB, hbad]
    · obtain ⟨rows, hr, _⟩ := hgood x hxs hxb
      simp [isRaisedB, hr]
  have hempty_ord : order.countP (isEmptyOkB fetch) = 1 := by
    rw [hperm.countP_eq, hperm_be.countP_eq, List.countP_cons, hempty_b]
    have : ((symbolsToProcess cfg dbResult symbols full_refresh).erase
        b).countP (isEmptyOkB fetch) = 0 := by
      rw [List.countP_eq_zero]
      intro x hx
      obtain ⟨hxb, hxs⟩ := hmem_erase x hx
      obtain ⟨rows, hr, hrne⟩ := hgood x hxs hxb
      simp [isEmptyOkB, hr, hrne]
    rw [this]
    simp
  have hdata : (collected fetch order).isEmpty = false := by
    cases hh : (collected fetch order).isEmpty
    · rfl
    · exfalso
      have hcoll := List.isEmpty_iff.mp hh
      have hall := (collected_eq_nil_iff fetch order).mp hcoll
      have herase_len : 1 ≤ ((symbolsToProcess cfg dbResult symbols
          full_refresh).erase b).length := by
        rw [List.length_erase_of_mem hb]
        omega
      obtain ⟨g, hg⟩ := List.exists_mem_of_length_pos herase_len
      have hgs := (hmem_erase g hg).2
      have := hall g (hperm.mem_iff.mpr hgs)
      rw [hsucc_erase g hg] at this
      exact Bool.true_eq_false.mp this
  rw [run_finished_eq cfg dbResult rowOk fetch symbols full_refresh order
    hsym hcond hdata]
  refine ⟨_, rfl, ?_, ?_, rfl, ?_⟩
  · exact hsucc_ord
  · rw [hraised_ord, hempty_ord]
    cases full_refresh <;> simp
  · intro r
    rw [mem_collected_flatten]
    constructor
    · rintro ⟨x, hx, hr⟩
      have hxs := hperm.mem_iff.mp hx
      by_cases hxb : x = b
      · subst hxb
        rw [hbad] at hr
        simp [FetchOutcome.rowsOf] at hr
      · exact ⟨x, hxs, hxb, hr⟩
    · rintro ⟨x, hxs, hxb, hr⟩
      exact ⟨x, hperm.mem_iff.mpr hxs, hr⟩

/-- C2 counterexample: an incremental run over two submitted symbols where
symbol `B.NS`'s provider fetch fails (caught, `None`) and `A.NS` returns a
row — the run reports successful = 1 = N − 1 but failed = 0, not 1: the
caught provider failure is not counted as a failure in incremental mode. -/
theorem claim_C2_counterexample :
    (fetch_all_stocks_concurrent cfgC (some dbC) rowOkTrue fetchC symsC false
        symsC).summaryOf.map
        (fun s => (s.successful_fetches, s.failed_fetches)) = some (1, 0)
    ∧ (some ((1 : ℕ), (0 : ℕ)) : Option (ℕ × ℕ)) ≠ some (1, 1) := by
  constructor
  · decide
  · decide

/-- Witness for C2 (amended) at a concrete full-refresh run: two submitted
symbols, one failing — successes = 1 = N − 1 and failures = 1. -/
theorem claim_C2_witness :
    ∃ s, (fetch_all_stocks_concurrent cfgC (some dbC) rowOkTrue fetchC symsC
          true symsC).outcome = .finished s
      ∧ s.successful_fetches = 1 ∧ s.failed_fetches = 1 := by
  have hgood : ∀ x ∈ symbolsToProcess cfgC (some dbC) symsC true,
      x ≠ "B.NS" → ∃ rows, fetchC x = .ok rows ∧ rows ≠ [] := by
    intro x hx hxb
    have hx' : x ∈ symsC := hx
    have : x = "A.NS" ∨ x = "B.NS" := by simpa [symsC] using hx'
    rcases this with h | h
    · subst h
      exact ⟨[rowA], by decide, by decide⟩
    · exact absurd h hxb
  obtain ⟨s, h1, h2, h3, _, _⟩ := claim_C2_single_failure_isolation cfgC (some dbC)
    rowOkTrue fetchC symsC true symsC "B.NS" (by decide) (by decide)
    (by decide) hgood (by decide) (by decide)
  refine ⟨s, h1, ?_, ?_⟩
  · simpa [symsC] using h2
  · simpa using h3

/-- C10: the chunked insert returns `False` on an empty batch and, for a
non-empty batch, `True` exactly when at least one row's individual insert
succeeded; consequently a run whose fetched rows all fail per-row insertion
is reported as a failed run (`success = False` in the summary and a `False`
first return component) even though every fetch succeeded. -/
theorem claim_C10_insert_result_semantics :
    (∀ rowOk : RowOk, insert_dataframe_chunked rowOk [] = false)
    ∧ (∀ (rowOk : RowOk) (df : List Row), df ≠ [] →
        (insert_dataframe_chunked rowOk df = true ↔ ∃ r ∈ df, rowOk r = true))
    ∧ (∀ (cfg : PlanConfig) (dbResult : Option (String → Option (Option ℤ)))
        (rowOk : RowOk) (fetch : String → FetchOutcome)
        (symbols order : List String) (full_refresh : Bool),
        order.Perm (symbolsToProcess cfg dbResult symbols full_refresh) →
        order ≠ [] →
        (∀ x ∈ order, ∃ rows, fetch x = .ok rows ∧ rows ≠ []) →
        (∀ r : Row, rowOk r = false) →
        ∃ s, (fetch_all_stocks_concurrent cfg dbResult rowOk fetch symbols
              full_refresh order).outcome = .finished s
          ∧ s.success = false
          ∧ (fetch_all_stocks_concurrent cfg dbResult rowOk fetch symbols
              full_refresh order).retOk = false
          ∧ s.successful_fetches = order.length) := by
  refine ⟨fun _ => rfl, ?_, ?_⟩
  · intro rowOk df hdf
    have hne : df.isEmpty = false := by
      cases df
      · exact absurd rfl hdf
      · rfl
    simp [insert_dataframe_chunked, hne, List.countP_pos_iff]
  · intro cfg dbResult rowOk fetch symbols order full_refresh hperm hord hall
      hfail
    have hstp_ne : symbolsToProcess cfg dbResult symbols full_refresh ≠ [] := by
      intro h
      rw [h] at hperm
      exact hord hperm.eq_nil
    have hsym : symbols.isEmpty = false :=
      symbolsToProcess_ne_nil cfg dbResult symbols full_refresh hstp_ne
    have hcond : full_refresh = true ∨
        (symbolsToProcess cfg dbResult symbols full_refresh).isEmpty = false := by
      right
      cases hh : (symbolsToProcess cfg dbResult symbols full_refresh).isEmpty
      · rfl
      · exact absurd (List.isEmpty_iff.mp hh) hstp_ne
    have hsucc_all : ∀ x ∈ order, isSuccB fetch x = true := by
      intro x hx
      obtain ⟨rows, hr, hrne⟩ := hall x hx
      simp [isSuccB, hr, hrne]
    have hdata : (collected fetch order).isEmpty = false := by
      cases hh : (collected fetch order).isEmpty
      · rfl
      · exfalso
        have hcoll := List.isEmpty_iff.mp hh
        have h0 := (collected_eq_nil_iff fetch order).mp hcoll
        obtain ⟨g, hg⟩ := List.exists_mem_of_length_pos
          (List.length_pos.mpr hord)
        have := h0 g hg
        rw [hsucc_all g hg] at this
        exact Bool.true_eq_false.mp this
    rw [run_finished_eq cfg dbResult rowOk fetch symbols full_refresh order
      hsym hcond hdata]
    have hcomb_ne : ((collected fetch order).flatten).isEmpty = false := by
      cases hh : ((collected fetch order).flatten).isEmpty
      · rfl
      · exfalso
        have h0 := List.isEmpty_iff.mp hh
        obtain ⟨g, hg⟩ := List.exists_mem_of_length_pos
          (List.length_pos.mpr hord)
        obtain ⟨rows, hr, hrne⟩ := hall g hg
        obtain ⟨r0, hr0⟩ := List.exists_mem_of_length_pos
          (List.length_pos.mpr hrne)
        have : r0 ∈ (collected fetch order).flatten := by
          rw [mem_collected_flatten]
          exact ⟨g, hg, by simp [hr, FetchOutcome.rowsOf, hr0]⟩
        rw [h0] at this
        simp at this
    have hins : insert_dataframe_chunked rowOk
        ((collected fetch order).flatten) = false := by
      simp only [insert_dataframe_chunked, hcomb_ne, Bool.false_eq_true,
        if_false]
      have : ((collected fetch order).flatten).countP rowOk = 0 := by
        rw [List.countP_eq_zero]
        intro r _
        simp [hfail r]
      simp [this]
    rw [hins]
    exact ⟨_, rfl, rfl, rfl, by rw [List.countP_eq_length.mpr hsucc_all]⟩

/-- Witness for C10: a one-symbol run whose single row fails insertion —
fetch succeeded, yet the run reports failure; also the empty-batch and
non-empty-batch return values at concrete inputs. -/
theorem claim_C10_witness :
    insert_dataframe_chunked rowOkFalse [] = false
    ∧ (insert_dataframe_chunked rowOkTrue [rowA] = true ↔
        ∃ r ∈ [rowA], rowOkTrue r = true)
    ∧ ∃ s, (fetch_all_stocks_concurrent cfgC (some dbN) rowOkFalse fetchC
          ["A.NS"] false ["A.NS"]).outcome = .finished s
        ∧ s.success = false ∧ s.successful_fetches = 1 := by
  have hall : ∀ x ∈ ["A.NS"], ∃ rows, fetchC x = .ok rows ∧ rows ≠ [] := by
    intro x hx
    have : x = "A.NS" := by simpa using hx
    subst this
    exact ⟨[rowA], by decide, by decide⟩
  obtain ⟨s, h1, h2, _, h4⟩ := claim_C10_insert_result_semantics.2.2 cfgC
    (some dbN) rowOkFalse fetchC ["A.NS"] ["A.NS"] false (by decide)
    (by decide) hall (fun r => rfl)
  exact ⟨claim_C10_insert_result_semantics.1 rowOkFalse,
    claim_C10_insert_result_semantics.2.1 rowOkTrue [rowA] (by decide),
    s, h1, h2, by simpa using h4⟩

/-- C8 (amended): the `data/last_update.json` marker is written exactly when
the run returns success — including a no-op run that fetched zero new rows
(the all-up-to-date early return) — and never after a failed run. -/
theorem claim_C8_marker_iff_success (cfg : PlanConfig)
    (dbResult : Option (String → Option (Option ℤ))) (rowOk : RowOk)
    (fetch : String → FetchOutcome) (symbols : List String)
    (full_refresh : Bool) (order : List String) :
    run_update_marker_written (fetch_all_stocks_concurrent cfg dbResult rowOk
        fetch symbols full_refresh order) = true ↔
      ((∃ s, (fetch_all_stocks_concurrent cfg dbResult rowOk fetch symbols
          full_refresh order).outcome = .okUpToDate s)
        ∨ (∃ s, (fetch_all_stocks_concurrent cfg dbResult rowOk fetch symbols
            full_refresh order).outcome = .finished s ∧ s.success = true)) := by
  cases hsym : symbols.isEmpty with
  | true =>
    have hnil := List.isEmpty_iff.mp hsym
    subst hnil
    unfold fetch_all_stocks_concurrent
    simp [run_update_marker_written]
  | false =>
    by_cases hup : full_refresh = false ∧
        (symbolsToProcess cfg dbResult symbols full_refresh).isEmpty = true
    · obtain ⟨hfr, hstp⟩ := hup
      subst hfr
      rw [run_upToDate_eq cfg dbResult rowOk fetch symbols order hsym hstp]
      simp [run_update_marker_written]
    · have hcond : full_refresh = true ∨
          (symbolsToProcess cfg dbResult symbols full_refresh).isEmpty = false := by
        cases hfr : full_refresh
        · subst hfr
          right
          cases hh : (symbolsToProcess cfg dbResult symbols false).isEmpty
          · rfl
          · exact absurd ⟨rfl, hh⟩ hup
        · left; rfl
      cases hdata : (collected fetch order).isEmpty with
      | true =>
        rw [run_noData_eq cfg dbResult rowOk fetch symbols full_refresh order
          hsym hcond hdata]
        simp [run_update_marker_written]
      | false =>
        rw [run_finished_eq cfg dbResult rowOk fetch symbols full_refresh order
          hsym hcond hdata]
        simp [run_update_marker_written]

/-- C8 counterexample: a no-op incremental run (every symbol up to date)
returns success with zero new rows, and the marker IS written — contradicting
the claim that the marker is never written after a zero-row run. -/
theorem claim_C8_counterexample :
    run_update_marker_written
        (fetch_all_stocks_concurrent cfgC (some dbU) rowOkTrue fetchC symsC
          false []) = true
    ∧ (fetch_all_stocks_concurrent cfgC (some dbU) rowOkTrue fetchC symsC
        false []).totalRecords = 0 := by
  constructor
  · decide
  · decide

/-- Witness for C8 (amended): the marker is written for the concrete
successful no-op run. -/
theorem claim_C8_witness :
    run_update_marker_written
        (fetch_all_stocks_concurrent cfgC (some dbU) rowOkTrue fetchC symsC
          false []) = true :=
  (claim_C8_marker_iff_success cfgC (some dbU) rowOkTrue fetchC symsC
    false []).mpr (Or.inl ⟨⟨true, false, 2, 0, 0, 2, 0⟩, by decide⟩)

end DatabaseManagerRepo
